import Mathlib

/-!
Shallow embedding of the `ocm-api-metamodel` concept graph and of the
JavaScript types generator (`pkg/generators/javascript/types_generator.go`),
together with proofs about the behaviour of `Resource`
(`pkg/concepts/resource.go`) and of the generator run loop.

Conventions: Go nil pointers become `Option`; Go slices become `List`;
Go's `sort.Sort` (an unspecified, unstable comparison sort whose
postcondition is only that the slice is sorted) is modelled by insertion
sort, which produces a sorted permutation of its input.  Components of the
repository that are outside the excerpt (the `names` package, the
calculators, the `Buffer`, the `Reporter`) are modelled from the spec and
carry a doc comment saying so.
-/

namespace Metamodel

/-- Strict lexicographic comparison of two lists, parameterised by a
boolean strict comparison on the elements.  This realises the ordering a
Go three-way string comparison induces on slices, and it evaluates inside
the kernel. -/
def lexLtBWith (ltb : α → α → Bool) : List α → List α → Bool
  | [], [] => false
  | [], _ :: _ => true
  | _ :: _, [] => false
  | a :: as, b :: bs =>
    if ltb a b then true else if ltb b a then false else lexLtBWith ltb as bs

theorem lexLtBWith_asymm (ltb : α → α → Bool)
    (ha : ∀ a b, ltb a b = true → ltb b a = false) :
    ∀ xs ys, lexLtBWith ltb xs ys = true → lexLtBWith ltb ys xs = false := by
  intro xs
  induction xs with
  | nil =>
    intro ys h
    cases ys with
    | nil => simp [lexLtBWith] at h
    | cons b bs => rfl
  | cons a as ih =>
    intro ys h
    cases ys with
    | nil => simp [lexLtBWith] at h
    | cons b bs =>
      rw [lexLtBWith] at h ⊢
      by_cases h1 : ltb a b
      · rw [ha a b h1, if_neg (by simp), if_pos h1]
      · rw [if_neg h1] at h
        by_cases h2 : ltb b a
        · rw [if_pos h2] at h
          cases h
        · rw [if_neg h2] at h
          rw [if_neg h2, if_neg h1]
          exact ih bs h

theorem lexLtBWith_eq_of_not (ltb : α → α → Bool)
    (he : ∀ a b, ltb a b = false → ltb b a = false → a = b) :
    ∀ xs ys, lexLtBWith ltb xs ys = false → lexLtBWith ltb ys xs = false →
      xs = ys := by
  intro xs
  induction xs with
  | nil =>
    intro ys h1 h2
    cases ys with
    | nil => rfl
    | cons b bs => simp [lexLtBWith] at h1
  | cons a as ih =>
    intro ys h1 h2
    cases ys with
    | nil => simp [lexLtBWith] at h2
    | cons b bs =>
      rw [lexLtBWith] at h1 h2
      by_cases hab : ltb a b
      · rw [if_pos hab] at h1; cases h1
      · by_cases hba : ltb b a
        · rw [if_pos hba] at h2; cases h2
        · rw [if_neg hab, if_neg hba] at h1
          rw [if_neg hba, if_neg hab] at h2
          rw [he a b (Bool.eq_false_iff.mpr hab) (Bool.eq_false_iff.mpr hba),
            ih bs h1 h2]

theorem lexLtBWith_trans (ltb : α → α → Bool)
    (he : ∀ a b, ltb a b = false → ltb b a = false → a = b)
    (ht : ∀ a b c, ltb a b = true → ltb b c = true → ltb a c = true) :
    ∀ xs ys zs, lexLtBWith ltb xs ys = true → lexLtBWith ltb ys zs = true →
      lexLtBWith ltb xs zs = true := by
  intro xs
  induction xs with
  | nil =>
    intro ys zs h1 h2
    cases ys with
    | nil => simp [lexLtBWith] at h1
    | cons b bs =>
      cases zs with
      | nil => simp [lexLtBWith] at h2
      | cons c cs => rfl
  | cons a as ih =>
    intro ys zs h1 h2
    cases ys with
    | nil => simp [lexLtBWith] at h1
    | cons b bs =>
      cases zs with
      | nil => simp [lexLtBWith] at h2
      | cons c cs =>
        rw [lexLtBWith] at h1 h2 ⊢
        by_cases hab : ltb a b
        · by_cases hbc : ltb b c
          · rw [if_pos (ht a b c hab hbc)]
          · by_cases hcb : ltb c b
            · rw [if_neg hbc, if_pos hcb] at h2; cases h2
            · obtain rfl := he b c (Bool.eq_false_iff.mpr hbc) (Bool.eq_false_iff.mpr hcb)
              rw [if_pos hab]
        · by_cases hba : ltb b a
          · rw [if_pos hba] at h1
            rw [if_neg hab] at h1
            cases h1
          · obtain rfl := he a b (Bool.eq_false_iff.mpr hab) (Bool.eq_false_iff.mpr hba)
            rw [if_neg hab, if_neg hba] at h1
            by_cases hbc : ltb a c
            · rw [if_pos hbc]
            · by_cases hcb : ltb c a
              · rw [if_neg hbc, if_pos hcb] at h2; cases h2
              · obtain rfl := he a c (Bool.eq_false_iff.mpr hbc) (Bool.eq_false_iff.mpr hcb)
                rw [if_neg hbc, if_neg hcb] at h2 ⊢
                exact ih bs cs h1 h2

/-- Boolean strict comparison of characters by code point. -/
def charLtB (c d : Char) : Bool := Nat.blt c.toNat d.toNat

theorem charLtB_asymm (c d : Char) (h : charLtB c d = true) : charLtB d c = false := by
  unfold charLtB at h ⊢
  rw [Nat.blt_eq] at h
  rw [Bool.eq_false_iff, Ne, Nat.blt_eq]
  omega

theorem charLtB_eq (c d : Char) (h1 : charLtB c d = false) (h2 : charLtB d c = false) :
    c = d := by
  unfold charLtB Char.toNat at h1 h2
  rw [Bool.eq_false_iff, Ne, Nat.blt_eq] at h1 h2
  exact Char.eq_of_val_eq (UInt32.ext (by omega))

theorem charLtB_trans (c d e : Char) (h1 : charLtB c d = true)
    (h2 : charLtB d e = true) : charLtB c e = true := by
  unfold charLtB at h1 h2 ⊢
  rw [Nat.blt_eq] at h1 h2 ⊢
  omega

/-- Boolean strict comparison of word segments (strings), lexicographic on
their characters. -/
def segLtB (s t : String) : Bool := lexLtBWith charLtB s.data t.data

theorem segLtB_asymm (s t : String) (h : segLtB s t = true) : segLtB t s = false :=
  lexLtBWith_asymm charLtB charLtB_asymm s.data t.data h

theorem segLtB_eq (s t : String) (h1 : segLtB s t = false) (h2 : segLtB t s = false) :
    s = t :=
  String.ext (lexLtBWith_eq_of_not charLtB charLtB_eq s.data t.data h1 h2)

theorem segLtB_trans (s t u : String) (h1 : segLtB s t = true)
    (h2 : segLtB t u = true) : segLtB s u = true :=
  lexLtBWith_trans charLtB charLtB_eq charLtB_trans s.data t.data u.data h1 h2

/-- Modelled from the spec: a `Name` (package `names`, not in the excerpt)
is an ordered sequence of lower-case word segments; equality and ordering
are segment-wise and case-insensitive.  Segments are kept in canonical
lower-case form, so plain lexicographic comparison of the segment lists
realises the case-insensitive total order. -/
abbrev Name := List String

/-- The strict part of the total order on names: lexicographic on
segments, each segment compared lexicographically on characters. -/
def nameLtB (a b : Name) : Bool := lexLtBWith segLtB a b

theorem nameLtB_asymm (a b : Name) (h : nameLtB a b = true) : nameLtB b a = false :=
  lexLtBWith_asymm segLtB segLtB_asymm a b h

theorem nameLtB_eq (a b : Name) (h1 : nameLtB a b = false) (h2 : nameLtB b a = false) :
    a = b :=
  lexLtBWith_eq_of_not segLtB segLtB_eq a b h1 h2

theorem nameLtB_trans (a b c : Name) (h1 : nameLtB a b = true)
    (h2 : nameLtB b c = true) : nameLtB a c = true :=
  lexLtBWith_trans segLtB segLtB_eq segLtB_trans a b c h1 h2

namespace names

/-- Modelled from the spec: `names.Equals`, segment-wise equality. -/
def Equals (a b : Name) : Bool := a == b

/-- Modelled from the spec: `names.Compare`, the total order on names;
it returns `-1`, `0` or `1` like a three-way comparison. -/
def Compare (a b : Name) : Int :=
  if nameLtB a b then -1 else if nameLtB b a then 1 else 0

/-- Modelled from the spec: `names.Cat` concatenates two names,
preserving word-segment boundaries. -/
def Cat (a b : Name) : Name := a ++ b

theorem Compare_eq_neg_one_iff (a b : Name) :
    Compare a b = -1 ↔ nameLtB a b = true := by
  unfold Compare
  by_cases h : nameLtB a b
  · simp [h]
  · by_cases h2 : nameLtB b a <;> simp [h, h2]

theorem Equals_iff (a b : Name) : Equals a b = true ↔ a = b := by
  unfold Equals
  exact beq_iff_eq

/-- Totality of the non-strict order induced by `Compare`. -/
theorem le_total_of_Compare (x y : Name) :
    ¬ Compare y x = -1 ∨ ¬ Compare x y = -1 := by
  rw [Compare_eq_neg_one_iff, Compare_eq_neg_one_iff]
  by_cases h : nameLtB y x = true
  · right
    intro h2
    have hf := nameLtB_asymm x y h2
    rw [h] at hf
    cases hf
  · left
    exact h

/-- Transitivity of the non-strict order induced by `Compare`. -/
theorem le_trans_of_Compare (x y z : Name)
    (h1 : ¬ Compare y x = -1) (h2 : ¬ Compare z y = -1) :
    ¬ Compare z x = -1 := by
  rw [Compare_eq_neg_one_iff] at h1 h2 ⊢
  intro h3
  by_cases h4 : nameLtB y z = true
  · exact h1 (nameLtB_trans y z x h4 h3)
  · by_cases h5 : nameLtB z y = true
    · exact h2 h5
    · obtain rfl := nameLtB_eq y z (Bool.eq_false_iff.mpr h4) (Bool.eq_false_iff.mpr h5)
      exact h1 h3

end names

/-- A method of a resource (`concepts.Method`; only the fields the excerpt
exercises).  The owner back-reference is a handle (the owning resource's
id), following the arena modelling of back-references. -/
structure Method where
  name : Name
  doc : String := ""
  owner : Option Nat := none
deriving DecidableEq, Repr

/-- `Method.SetOwner` (pointer semantics: records the owning resource's
handle). -/
def Method.SetOwner (m : Method) (r : Nat) : Method := { m with owner := some r }

/-- A locator of a resource (`concepts.Locator`).  `variableFlag` holds the
"variable" flag returned by the Go accessor `Variable()`; `target` is a
handle to the target resource. -/
structure Locator where
  name : Name
  variableFlag : Bool := false
  target : Option Nat := none
  owner : Option Nat := none
  doc : String := ""
deriving DecidableEq, Repr

/-- `Locator.Variable()` accessor. -/
def Locator.Variable (l : Locator) : Bool := l.variableFlag

/-- `Locator.SetOwner`. -/
def Locator.SetOwner (l : Locator) (r : Nat) : Locator := { l with owner := some r }

/-- The sortedness relation realised by Go's `sort.Sort` on `MethodSlice`:
`MethodSlice.Less(i, j)` is `names.Compare(s[i].name, s[j].name) == -1`, and
a sorted slice satisfies the negation of `Less` on every out-of-order pair. -/
def methodLe (a b : Method) : Prop := ¬ names.Compare b.name a.name = -1

/-- The sortedness relation realised by Go's `sort.Sort` on `LocatorSlice`. -/
def locatorLe (a b : Locator) : Prop := ¬ names.Compare b.name a.name = -1

instance : DecidableRel methodLe := fun a b => by unfold methodLe; infer_instance

instance : DecidableRel locatorLe := fun a b => by unfold locatorLe; infer_instance

instance : IsTotal Method methodLe :=
  ⟨fun a b => names.le_total_of_Compare a.name b.name⟩

instance : IsTrans Method methodLe :=
  ⟨fun a b c hab hbc => names.le_trans_of_Compare a.name b.name c.name hab hbc⟩

instance : IsTotal Locator locatorLe :=
  ⟨fun a b => names.le_total_of_Compare a.name b.name⟩

instance : IsTrans Locator locatorLe :=
  ⟨fun a b c hab hbc => names.le_trans_of_Compare a.name b.name c.name hab hbc⟩

/-- `concepts.Resource` (from the excerpt): owner back-reference, doc,
name, methods and locators.  `id` is the arena handle of the resource used
for the children's owner back-references. -/
structure Resource where
  id : Nat := 0
  owner : Option Nat := none
  doc : String := ""
  name : Name := []
  methods : List Method := []
  locators : List Locator := []
deriving DecidableEq, Repr

/-- `concepts.NewResource`: creates a new, empty resource. -/
def NewResource : Resource := {}

/-- `Resource.Methods()` accessor. -/
def Resource.Methods (r : Resource) : List Method := r.methods

/-- `Resource.Locators()` accessor. -/
def Resource.Locators (r : Resource) : List Locator := r.locators

/-- `Resource.AddMethod`: a nil method is a no-op; otherwise the method is
appended, the slice is re-sorted (`sort.Sort`, modelled as insertion sort)
and the method's owner is set to the resource.  In Go the owner is set on
the pointed-to method after sorting; with value semantics we set it before
inserting, which yields the same final slice because the owner field does
not take part in the ordering. -/
def Resource.AddMethod (r : Resource) (method : Option Method) : Resource :=
  match method with
  | none => r
  | some m =>
    let m := m.SetOwner r.id
    { r with methods := List.insertionSort methodLe (r.methods ++ [m]) }

/-- The linear scan of `Resource.FindMethod`. -/
def findMethodLoop (n : Name) : List Method → Option Method
  | [] => none
  | m :: rest => if names.Equals m.name n then some m else findMethodLoop n rest

/-- `Resource.FindMethod`: returns the first method with the given name, or
nil if there is no such method. -/
def Resource.FindMethod (r : Resource) (n : Name) : Option Method :=
  findMethodLoop n r.methods

/-- `Resource.AddLocator`: a nil locator is a no-op; otherwise the locator
is appended, the slice re-sorted, and the locator's owner set. -/
def Resource.AddLocator (r : Resource) (locator : Option Locator) : Resource :=
  match locator with
  | none => r
  | some l =>
    let l := l.SetOwner r.id
    { r with locators := List.insertionSort locatorLe (r.locators ++ [l]) }

/-- The linear scan of `Resource.VariableLocator`. -/
def findVariableLoop : List Locator → Option Locator
  | [] => none
  | l :: rest => if l.Variable then some l else findVariableLoop rest

/-- `Resource.VariableLocator`: returns the first locator whose `Variable()`
flag is set, or nil when there is none. -/
def Resource.VariableLocator (r : Resource) : Option Locator :=
  findVariableLoop r.locators

/-- The accumulating loop of `Resource.ConstantLocators`. -/
def constantLoop : List Locator → List Locator
  | [] => []
  | l :: rest => if !l.Variable then l :: constantLoop rest else constantLoop rest

/-- `Resource.ConstantLocators`: returns the locators whose `Variable()`
flag is not set, in collection order. -/
def Resource.ConstantLocators (r : Resource) : List Locator :=
  constantLoop r.locators

/-- Adding a whole sequence of (non-nil) methods, one `AddMethod` call per
element. -/
def Resource.addMethods (r : Resource) (ms : List Method) : Resource :=
  ms.foldl (fun r m => r.AddMethod (some m)) r

/-- Adding a whole sequence of (non-nil) locators, one `AddLocator` call per
element. -/
def Resource.addLocators (r : Resource) (ls : List Locator) : Resource :=
  ls.foldl (fun r l => r.AddLocator (some l)) r

theorem addMethods_sorted (ms : List Method) (r : Resource)
    (h : r.methods.Sorted methodLe) :
    ((r.addMethods ms).methods).Sorted methodLe := by
  induction ms generalizing r with
  | nil => exact h
  | cons m rest ih => exact ih _ (List.sorted_insertionSort methodLe _)

theorem addLocators_sorted (ls : List Locator) (r : Resource)
    (h : r.locators.Sorted locatorLe) :
    ((r.addLocators ls).locators).Sorted locatorLe := by
  induction ls generalizing r with
  | nil => exact h
  | cons l rest ih => exact ih _ (List.sorted_insertionSort locatorLe _)

theorem findMethodLoop_eq_none_iff (n : Name) (l : List Method) :
    findMethodLoop n l = none ↔ ∀ m ∈ l, names.Equals m.name n = false := by
  induction l with
  | nil => simp [findMethodLoop]
  | cons m rest ih =>
    by_cases h : names.Equals m.name n
    · simp [findMethodLoop, h]
    · simp only [findMethodLoop, if_neg h, ih, List.mem_cons]
      constructor
      · intro hall m' hm'
        rcases hm' with rfl | hm'
        · exact Bool.eq_false_iff.mpr h
        · exact hall m' hm'
      · intro hall m' hm'
        exact hall m' (Or.inr hm')

theorem findMethodLoop_eq_some (n : Name) (l : List Method) (m : Method)
    (h : findMethodLoop n l = some m) :
    ∃ l₁ l₂, l = l₁ ++ m :: l₂ ∧ names.Equals m.name n = true ∧
      ∀ m' ∈ l₁, names.Equals m'.name n = false := by
  induction l with
  | nil => simp [findMethodLoop] at h
  | cons m0 rest ih =>
    by_cases h0 : names.Equals m0.name n
    · rw [findMethodLoop, if_pos h0] at h
      obtain rfl := Option.some.inj h
      exact ⟨[], rest, rfl, h0, by simp⟩
    · rw [findMethodLoop, if_neg h0] at h
      obtain ⟨l₁, l₂, heq, hm, hprev⟩ := ih h
      refine ⟨m0 :: l₁, l₂, by rw [heq]; rfl, hm, ?_⟩
      intro m' hm'
      rcases List.mem_cons.mp hm' with rfl | hm'
      · exact Bool.eq_false_iff.mpr h0
      · exact hprev m' hm'

theorem findVariableLoop_eq_none_iff (l : List Locator) :
    findVariableLoop l = none ↔ ∀ x ∈ l, x.Variable = false := by
  induction l with
  | nil => simp [findVariableLoop]
  | cons x rest ih =>
    by_cases h : x.Variable
    · simp [findVariableLoop, h]
    · simp only [findVariableLoop, if_neg h, ih, List.mem_cons]
      constructor
      · intro hall x' hx'
        rcases hx' with rfl | hx'
        · exact Bool.eq_false_iff.mpr h
        · exact hall x' hx'
      · intro hall x' hx'
        exact hall x' (Or.inr hx')

theorem findVariableLoop_eq_some (l : List Locator) (v : Locator)
    (h : findVariableLoop l = some v) :
    ∃ l₁ l₂, l = l₁ ++ v :: l₂ ∧ v.Variable = true ∧
      ∀ x ∈ l₁, x.Variable = false := by
  induction l with
  | nil => simp [findVariableLoop] at h
  | cons x rest ih =>
    by_cases h0 : x.Variable
    · rw [findVariableLoop, if_pos h0] at h
      obtain rfl := Option.some.inj h
      exact ⟨[], rest, rfl, h0, by simp⟩
    · rw [findVariableLoop, if_neg h0] at h
      obtain ⟨l₁, l₂, heq, hv, hprev⟩ := ih h
      refine ⟨x :: l₁, l₂, by rw [heq]; rfl, hv, ?_⟩
      intro x' hx'
      rcases List.mem_cons.mp hx' with rfl | hx'
      · exact Bool.eq_false_iff.mpr h0
      · exact hprev x' hx'

theorem constantLoop_eq_filter (l : List Locator) :
    constantLoop l = l.filter (fun x => !x.Variable) := by
  induction l with
  | nil => rfl
  | cons x rest ih =>
    by_cases h : x.Variable
    · simp [constantLoop, List.filter, h, ih]
    · simp [constantLoop, List.filter, h, ih]

theorem variable_partition (l : List Locator)
    (hc : l.countP (fun x => x.Variable) ≤ 1) (x : Locator) (hx : x ∈ l) :
    findVariableLoop l = some x ∨ x ∈ constantLoop l := by
  by_cases hv : x.Variable
  · cases hfv : findVariableLoop l with
    | none =>
      have hfalse := (findVariableLoop_eq_none_iff l).mp hfv x hx
      rw [hv] at hfalse
      cases hfalse
    | some v =>
      obtain ⟨l₁, l₂, heq, hvv, hprev⟩ := findVariableLoop_eq_some l v hfv
      subst heq
      rcases List.mem_append.mp hx with h1 | h2
      · rw [hprev x h1] at hv
        cases hv
      · rcases List.mem_cons.mp h2 with rfl | h2
        · exact Or.inl rfl
        · exfalso
          have h2pos : 0 < l₂.countP (fun x => x.Variable) :=
            List.countP_pos_iff.mpr ⟨x, h2, hv⟩
          have h2sum : 2 ≤ (l₁ ++ v :: l₂).countP (fun x => x.Variable) := by
            rw [List.countP_append, List.countP_cons]
            simp [hvv]
            omega
          omega
  · right
    rw [constantLoop_eq_filter]
    refine List.mem_filter.mpr ⟨hx, ?_⟩
    simp [Bool.eq_false_iff.mpr hv]

/-- C8: `AddMethod(nil)` and `AddLocator(nil)` are no-ops, not errors: the
resource — its collections, their order, and every owner back-reference
stored in them — is exactly as before the call, and the operations are
total, so no failure is signalled. -/
theorem claim_C8_nil_add_noop (r : Resource) :
    r.AddMethod none = r ∧ r.AddLocator none = r :=
  ⟨rfl, rfl⟩

/-- C5: for every resource built by a sequence of `AddMethod` calls with
non-nil methods, `Methods()` is sorted by the Name total order, and
`FindMethod n` returns the first method of that sorted collection whose
name equals `n` (segment-wise equality), or nil when no method has that
name — never a failure. -/
theorem claim_C5_addMethod_findMethod (ms : List Method) (n : Name) :
    ((NewResource.addMethods ms).Methods).Sorted methodLe ∧
    ((NewResource.addMethods ms).FindMethod n = none ↔
      ∀ m ∈ (NewResource.addMethods ms).Methods, names.Equals m.name n = false) ∧
    (∀ m, (NewResource.addMethods ms).FindMethod n = some m →
      ∃ l₁ l₂, (NewResource.addMethods ms).Methods = l₁ ++ m :: l₂ ∧
        names.Equals m.name n = true ∧
        ∀ m' ∈ l₁, names.Equals m'.name n = false) := by
  refine ⟨addMethods_sorted ms NewResource List.sorted_nil, ?_, ?_⟩
  · exact findMethodLoop_eq_none_iff n _
  · intro m h
    exact findMethodLoop_eq_some n _ m h

/-- Concrete input for the C5 witness: two methods added out of name
order. -/
def msW : List Method := [{ name := ["delete"] }, { name := ["add"] }]

/-- Witness for C5 at a concrete input: the collection ends up sorted and
`FindMethod` retrieves the method named `add`. -/
theorem claim_C5_addMethod_findMethod_witness :
    (NewResource.addMethods msW).Methods =
      [{ name := ["add"], owner := some 0 }, { name := ["delete"], owner := some 0 }] ∧
    (NewResource.addMethods msW).FindMethod ["add"] =
      some { name := ["add"], owner := some 0 } ∧
    (((NewResource.addMethods msW).Methods).Sorted methodLe ∧
      ((NewResource.addMethods msW).FindMethod ["add"] = none ↔
        ∀ m ∈ (NewResource.addMethods msW).Methods,
          names.Equals m.name ["add"] = false) ∧
      (∀ m, (NewResource.addMethods msW).FindMethod ["add"] = some m →
        ∃ l₁ l₂, (NewResource.addMethods msW).Methods = l₁ ++ m :: l₂ ∧
          names.Equals m.name ["add"] = true ∧
          ∀ m' ∈ l₁, names.Equals m'.name ["add"] = false)) :=
  ⟨by decide, by decide, claim_C5_addMethod_findMethod msW ["add"]⟩

/-- C6 (amended): after any sequence of `AddLocator` calls the collection
is sorted; `ConstantLocators()` is exactly the sub-collection of locators
with `Variable() == false`, in sorted order; `VariableLocator()` returns
the first locator flagged variable, or nil when none is flagged; and the
two results partition the locator set whenever at most one locator is
flagged variable. -/
theorem claim_C6_locators (ls : List Locator) :
    ((NewResource.addLocators ls).Locators).Sorted locatorLe ∧
    (NewResource.addLocators ls).ConstantLocators =
      ((NewResource.addLocators ls).Locators).filter (fun x => !x.Variable) ∧
    ((NewResource.addLocators ls).ConstantLocators).Sorted locatorLe ∧
    (match (NewResource.addLocators ls).VariableLocator with
     | none => ∀ x ∈ (NewResource.addLocators ls).Locators, x.Variable = false
     | some v => ∃ l₁ l₂,
         (NewResource.addLocators ls).Locators = l₁ ++ v :: l₂ ∧
         v.Variable = true ∧ ∀ x ∈ l₁, x.Variable = false) ∧
    (((NewResource.addLocators ls).Locators).countP (fun x => x.Variable) ≤ 1 →
      ∀ x ∈ (NewResource.addLocators ls).Locators,
        (NewResource.addLocators ls).VariableLocator = some x ∨
        x ∈ (NewResource.addLocators ls).ConstantLocators) := by
  have hsorted : ((NewResource.addLocators ls).Locators).Sorted locatorLe :=
    addLocators_sorted ls NewResource List.sorted_nil
  have hconst : (NewResource.addLocators ls).ConstantLocators =
      ((NewResource.addLocators ls).Locators).filter (fun x => !x.Variable) :=
    constantLoop_eq_filter _
  refine ⟨hsorted, hconst, ?_, ?_, ?_⟩
  · rw [hconst]
    exact hsorted.filter _
  · rcases hfv : (NewResource.addLocators ls).VariableLocator with _ | v
    · exact (findVariableLoop_eq_none_iff _).mp hfv
    · exact findVariableLoop_eq_some _ v hfv
  · intro hc x hx
    exact variable_partition _ hc x hx

/-- Concrete resource with two locators flagged variable: the witness that
the partition property of C6, as originally claimed, does not hold. -/
def rCex : Resource :=
  (NewResource.AddLocator (some { name := ["a"], variableFlag := true })).AddLocator
    (some { name := ["b"], variableFlag := true })

/-- C6 counterexample: with two locators flagged variable the union of
`VariableLocator()` (a single locator) and `ConstantLocators()` does not
cover the locator set, so the two results do not partition it. -/
theorem claim_C6_locators_cex :
    ¬ (∀ x ∈ rCex.Locators,
        rCex.VariableLocator = some x ∨ x ∈ rCex.ConstantLocators) := by
  decide

/-- Concrete input for the C6 witness: one variable locator and one
constant locator. -/
def lsW : List Locator :=
  [{ name := ["id"], variableFlag := true }, { name := ["all"] }]

/-- Witness for C6 at a concrete input: the amended theorem instantiated on
a resource with one variable and one constant locator, together with the
evaluated results. -/
theorem claim_C6_locators_witness :
    (NewResource.addLocators lsW).VariableLocator =
      some { name := ["id"], variableFlag := true, owner := some 0 } ∧
    (NewResource.addLocators lsW).ConstantLocators =
      [{ name := ["all"], owner := some 0 }] ∧
    (((NewResource.addLocators lsW).Locators).countP (fun x => x.Variable) ≤ 1 →
      ∀ x ∈ (NewResource.addLocators lsW).Locators,
        (NewResource.addLocators lsW).VariableLocator = some x ∨
        x ∈ (NewResource.addLocators lsW).ConstantLocators) :=
  ⟨by decide, by decide, (claim_C6_locators lsW).2.2.2.2⟩

/-- Modelled from the spec: the kind tag of a model type
(`concepts.Type`, not in the excerpt).  The spec lists the closed variant
set scalar, enum, struct, class (a struct with identity), list, map;
`cls` stands for `class`, which is reserved in Lean. -/
inductive TypeKind where
  | scalar
  | enum
  | struct
  | cls
  | list
  | map
deriving DecidableEq, Repr

/-- Modelled from the spec: a model type (`concepts.Type`), arena style:
its name, its kind tag, and the handle of the owning version.  The kind
payloads (attributes of a struct, values of an enum) live in `TypeDecl`. -/
structure MType where
  name : Name
  kind : TypeKind
  owner : Nat := 0
deriving DecidableEq, Repr

/-- `Type.IsScalar()`.  Modelled from the spec, which draws scalar and enum
as distinct variants of the closed kind set. -/
def MType.IsScalar (t : MType) : Bool := t.kind == .scalar

/-- `Type.IsEnum()`. -/
def MType.IsEnum (t : MType) : Bool := t.kind == .enum

/-- `Type.IsStruct()`: true for plain structs and for classes (the spec
describes a class as a struct with identity). -/
def MType.IsStruct (t : MType) : Bool := t.kind == .struct || t.kind == .cls

/-- `Type.IsClass()`. -/
def MType.IsClass (t : MType) : Bool := t.kind == .cls

/-- `Type.IsList()`. -/
def MType.IsList (t : MType) : Bool := t.kind == .list

/-- `Type.IsMap()`. -/
def MType.IsMap (t : MType) : Bool := t.kind == .map

/-- Modelled from the spec: an attribute of a struct type
(`concepts.Attribute`): name, referenced value type, documentation and the
"link" flag. -/
structure Attribute where
  name : Name
  type : MType
  link : Bool := false
  doc : String := ""
deriving DecidableEq, Repr

/-- `Attribute.Link()` accessor. -/
def Attribute.Link (a : Attribute) : Bool := a.link

/-- Modelled from the spec: a value of an enumerated type
(`concepts.EnumValue`); `typeName` is the owning enum type's name (an
arena-style back-reference used by `valueName`). -/
structure EnumValue where
  name : Name
  typeName : Name := []
  doc : String := ""
deriving DecidableEq, Repr

/-- A type as declared inside a version: the type itself together with its
kind payload (attributes for structs, values for enums), arena style. -/
structure TypeDecl where
  type : MType
  attributes : List Attribute := []
  values : List EnumValue := []
deriving DecidableEq, Repr

/-- Modelled from the spec: `concepts.Version`, arena style — `id` is the
version's handle, referenced by types' `owner` fields. -/
structure Version where
  id : Nat := 0
  name : Name := []
  types : List TypeDecl := []
deriving DecidableEq, Repr

/-- Modelled from the spec: `concepts.Service`. -/
structure Service where
  name : Name := []
  versions : List Version := []
deriving DecidableEq, Repr

/-- Modelled from the spec: `concepts.Model`, the root of the concept
graph. -/
structure Model where
  services : List Service := []
deriving DecidableEq, Repr

/-- Modelled from the spec: a target-language type reference produced by
the `TypesCalculator` (not in the excerpt); its rendered text. -/
structure TypeReference where
  text : String := ""
deriving DecidableEq, Repr

/-- Modelled from the spec: the `TypesCalculator` maps a model type to
value, nullable and list references and auxiliary names.  References are
modelled as always produced (non-nil), so the generator's nil-reference
fallback fires exactly when no dispatch case matches. -/
structure TypesCalculator where
  ValueReference : MType → TypeReference
  NullableReference : MType → TypeReference
  ListReference : MType → TypeReference
  EnumName : MType → String
  ZeroValue : MType → String

/-- Modelled from the spec: the `NamesCalculator` derives public and
private identifiers and file names from `Name` values. -/
structure NamesCalculator where
  File : Name → String
  Public : Name → String
  Private : Name → String

/-- Modelled from the spec: the `PackagesCalculator` derives the output
package path of a version (identified by its handle). -/
structure PackagesCalculator where
  VersionPackage : Nat → String

/-- Modelled from the spec: the `Reporter` records reported error
messages; `Errorf` appends one. -/
structure Reporter where
  errors : List String := []
deriving DecidableEq, Repr

/-- `Reporter.Errorf`: reports (records) an error message. -/
def Reporter.Errorf (r : Reporter) (msg : String) : Reporter :=
  { r with errors := r.errors ++ [msg] }

/-- Modelled from the spec: the canonical string form of a name
(`names.Name.String()`), used when formatting concepts in messages. -/
def NameString (n : Name) : String := String.intercalate "_" n

/-- The string rendering of an attribute used by report messages. -/
def attrString (a : Attribute) : String := NameString a.name

namespace nomenclator

/-- Modelled from the spec: the well-known name `nomenclator.Metadata`. -/
def Metadata : Name := ["metadata"]

/-- Modelled from the spec: the well-known name `nomenclator.Type` (called
`TypeName` here because `Type` is reserved in Lean). -/
def TypeName : Name := ["type"]

/-- Modelled from the spec: the well-known name `nomenclator.List` (called
`ListName` here to avoid shadowing `List`). -/
def ListName : Name := ["list"]

end nomenclator

/-- The JavaScript types generator (`TypesGenerator` of
`pkg/generators/javascript/types_generator.go`): reporter, error counter,
model, output path and the three calculators.  The `Buffer` field of the
Go struct is transient per-unit state and is modelled by the per-unit
functions below. -/
structure TypesGenerator where
  reporter : Reporter
  errors : Nat := 0
  model : Model
  output : String
  packages : PackagesCalculator
  names : NamesCalculator
  types : TypesCalculator

/-- `TypesGeneratorBuilder` with its optional dependencies; the Go zero
value has all pointers nil and the output path empty. -/
structure TypesGeneratorBuilder where
  reporter : Option Reporter := none
  model : Option Model := none
  output : String := ""
  packages : Option PackagesCalculator := none
  names : Option NamesCalculator := none
  types : Option TypesCalculator := none

/-- `NewTypesGenerator`: creates a new, empty builder. -/
def NewTypesGenerator : TypesGeneratorBuilder := {}

/-- `TypesGeneratorBuilder.Build`: checks the mandatory parameters one by
one, returning on the first missing one, and otherwise creates the
generator.  The result models Go's `(generator, err)` pair. -/
def TypesGeneratorBuilder.Build (b : TypesGeneratorBuilder) :
    Option TypesGenerator × Option String :=
  match b.reporter with
  | none => (none, some "reporter is mandatory")
  | some reporter =>
    match b.model with
    | none => (none, some "model is mandatory")
    | some model =>
      if b.output = "" then (none, some "output is mandatory")
      else
        match b.packages with
        | none => (none, some "packages calculator is mandatory")
        | some packages =>
          match b.names with
          | none => (none, some "names calculator is mandatory")
          | some names =>
            match b.types with
            | none => (none, some "types calculator is mandatory")
            | some types =>
              (some { reporter := reporter, errors := 0, model := model,
                      output := b.output, packages := packages,
                      names := names, types := types }, none)

/-- `TypesGenerator.metadataFile`. -/
def TypesGenerator.metadataFile (g : TypesGenerator) : String :=
  g.names.File (names.Cat nomenclator.Metadata nomenclator.TypeName)

/-- `TypesGenerator.typeFile`. -/
def TypesGenerator.typeFile (g : TypesGenerator) (typ : MType) : String :=
  g.names.File (names.Cat typ.name nomenclator.TypeName)

/-- `TypesGenerator.fieldName`. -/
def TypesGenerator.fieldName (g : TypesGenerator) (attr : Attribute) : String :=
  g.names.Private attr.name

/-- `TypesGenerator.getterName`. -/
def TypesGenerator.getterName (g : TypesGenerator) (attr : Attribute) : String :=
  g.names.Public attr.name

/-- `TypesGenerator.objectName`. -/
def TypesGenerator.objectName (g : TypesGenerator) (typ : MType) : String :=
  g.names.Public typ.name

/-- `TypesGenerator.valueName`. -/
def TypesGenerator.valueName (g : TypesGenerator) (value : EnumValue) : String :=
  g.names.Public (names.Cat value.typeName value.name)

/-- `TypesGenerator.valueTag`. -/
def TypesGenerator.valueTag (_ : TypesGenerator) (value : EnumValue) : String :=
  NameString value.name

/-- `TypesGenerator.listName`. -/
def TypesGenerator.listName (g : TypesGenerator) (typ : MType) : String :=
  g.names.Public (names.Cat typ.name nomenclator.ListName)

/-- `TypesGenerator.getterType`: the dispatch over the attribute's value
type.  Returns the chosen reference together with the generator state
after the call: when no case matches, the Go code reports through the
reporter and substitutes an empty reference — and does not touch the
`errors` counter, which this embedding reproduces faithfully. -/
def TypesGenerator.getterType (g : TypesGenerator) (attr : Attribute) :
    TypeReference × TypesGenerator :=
  if attr.type.IsScalar then (g.types.ValueReference attr.type, g)
  else if attr.type.IsStruct then (g.types.NullableReference attr.type, g)
  else if attr.type.IsList then
    (if attr.link then (g.types.ListReference attr.type, g)
     else (g.types.NullableReference attr.type, g))
  else if attr.type.IsMap then (g.types.NullableReference attr.type, g)
  else
    let msg := "Don't know how to calculate getter type for attribute '" ++
      attrString attr ++ "'"
    ({}, { g with reporter := g.reporter.Errorf msg })

/-- `TypesGenerator.fieldType`: like `getterType` but scalar attributes
get the nullable reference. -/
def TypesGenerator.fieldType (g : TypesGenerator) (attr : Attribute) :
    TypeReference × TypesGenerator :=
  if attr.type.IsScalar then (g.types.NullableReference attr.type, g)
  else if attr.type.IsStruct then (g.types.NullableReference attr.type, g)
  else if attr.type.IsList then
    (if attr.link then (g.types.ListReference attr.type, g)
     else (g.types.NullableReference attr.type, g))
  else if attr.type.IsMap then (g.types.NullableReference attr.type, g)
  else
    let msg := "Don't know how to calculate field type for attribute '" ++
      attrString attr ++ "'"
    ({}, { g with reporter := g.reporter.Errorf msg })

/-- A file written by the generator: its package directory and file name.
The `Buffer` (not in the excerpt) binds to exactly this output path; its
text accumulation is not modelled, and `Write` is modelled as succeeding
(I/O failures are external). -/
structure GeneratedFile where
  pkg : String
  file : String
deriving DecidableEq, Repr

/-- `generateEnumTypeSource`: the enum template invokes only pure helpers
(`enumName`, `valueName`, `valueTag`, `lineComment`), so rendering leaves
the generator state unchanged. -/
def TypesGenerator.generateEnumTypeSource (g : TypesGenerator) (_ : TypeDecl) :
    TypesGenerator := g

/-- `generateStructTypeSource`: the struct template invokes the registered
`getterType` helper once per attribute (its other helpers are pure), so
rendering threads the generator state through those calls. -/
def TypesGenerator.generateStructTypeSource (g : TypesGenerator) (td : TypeDecl) :
    TypesGenerator :=
  td.attributes.foldl (fun g a => (g.getterType a).2) g

/-- `generateTypeSource`: dispatches on the type's kind. -/
def TypesGenerator.generateTypeSource (g : TypesGenerator) (td : TypeDecl) :
    TypesGenerator :=
  if td.type.IsEnum then g.generateEnumTypeSource td
  else if td.type.IsStruct then g.generateStructTypeSource td
  else g

/-- `generateTypeFile`: computes the package and file name, renders the
source (threading the state) and writes the file. -/
def TypesGenerator.generateTypeFile (g : TypesGenerator) (td : TypeDecl) :
    GeneratedFile × TypesGenerator :=
  ({ pkg := g.packages.VersionPackage td.type.owner, file := g.typeFile td.type },
   g.generateTypeSource td)

/-- `generateVersionMetadataTypeFile`: the metadata template is a constant
fragment with no helpers, so only the file is produced. -/
def TypesGenerator.generateVersionMetadataTypeFile (g : TypesGenerator)
    (version : Version) : GeneratedFile × TypesGenerator :=
  ({ pkg := g.packages.VersionPackage version.id, file := g.metadataFile }, g)

/-- One iteration of the types loop of `Run`: only enum and struct types
generate a file; every other kind is skipped. -/
def runTypesStep (acc : List GeneratedFile × TypesGenerator) (td : TypeDecl) :
    List GeneratedFile × TypesGenerator :=
  if td.type.IsEnum || td.type.IsStruct then
    (acc.1 ++ [(acc.2.generateTypeFile td).1], (acc.2.generateTypeFile td).2)
  else acc

/-- The per-version body of `Run`: the version metadata file first, then
the types loop. -/
def TypesGenerator.runVersion (g : TypesGenerator) (version : Version) :
    List GeneratedFile × TypesGenerator :=
  ((g.generateVersionMetadataTypeFile version).1 ::
      (version.types.foldl runTypesStep
        ([], (g.generateVersionMetadataTypeFile version).2)).1,
   (version.types.foldl runTypesStep
     ([], (g.generateVersionMetadataTypeFile version).2)).2)

/-- One iteration of the versions loop of `Run`. -/
def runVersionsStep (acc : List GeneratedFile × TypesGenerator) (v : Version) :
    List GeneratedFile × TypesGenerator :=
  (acc.1 ++ (acc.2.runVersion v).1, (acc.2.runVersion v).2)

/-- One iteration of the services loop of `Run`. -/
def runServicesStep (acc : List GeneratedFile × TypesGenerator) (s : Service) :
    List GeneratedFile × TypesGenerator :=
  (acc.1 ++ (s.versions.foldl runVersionsStep ([], acc.2)).1,
   (s.versions.foldl runVersionsStep ([], acc.2)).2)

/-- The final error check of `Run` (its closing lines): success only when
the accumulated count is zero, otherwise a count-bearing message with
singular and plural phrasing. -/
def runFinish (errors : Nat) : Option String :=
  if errors > 0 then
    if errors > 1 then some ("there were " ++ toString errors ++ " errors")
    else some "there was 1 error"
  else none

/-- The observable outcome of a run: the files written, the final
generator state, and the returned error (`none` is Go's nil). -/
structure RunOutcome where
  files : List GeneratedFile
  final : TypesGenerator
  result : Option String

/-- `TypesGenerator.Run`: traverses services, versions and types,
generating the metadata file of every version and a type file for every
enum or struct type, then performs the final error check.  `Buffer.Write`
is modelled as succeeding, so the traversal always completes. -/
def TypesGenerator.Run (g : TypesGenerator) : RunOutcome :=
  let acc := g.model.services.foldl runServicesStep ([], g)
  { files := acc.1, final := acc.2, result := runFinish acc.2.errors }

theorem getterType_snd_packages (g : TypesGenerator) (a : Attribute) :
    ((g.getterType a).2).packages = g.packages := by
  unfold TypesGenerator.getterType
  split_ifs <;> rfl

theorem getterType_snd_names (g : TypesGenerator) (a : Attribute) :
    ((g.getterType a).2).names = g.names := by
  unfold TypesGenerator.getterType
  split_ifs <;> rfl

theorem foldGetter_packages (as : List Attribute) :
    ∀ g : TypesGenerator,
      ((as.foldl (fun g a => (g.getterType a).2) g)).packages = g.packages := by
  induction as with
  | nil => intro g; rfl
  | cons a as ih =>
    intro g
    rw [List.foldl_cons, ih, getterType_snd_packages]

theorem foldGetter_names (as : List Attribute) :
    ∀ g : TypesGenerator,
      ((as.foldl (fun g a => (g.getterType a).2) g)).names = g.names := by
  induction as with
  | nil => intro g; rfl
  | cons a as ih =>
    intro g
    rw [List.foldl_cons, ih, getterType_snd_names]

theorem generateTypeSource_packages (g : TypesGenerator) (td : TypeDecl) :
    (g.generateTypeSource td).packages = g.packages := by
  unfold TypesGenerator.generateTypeSource TypesGenerator.generateEnumTypeSource
    TypesGenerator.generateStructTypeSource
  split_ifs <;> first | rfl | exact foldGetter_packages td.attributes g

theorem generateTypeSource_names (g : TypesGenerator) (td : TypeDecl) :
    (g.generateTypeSource td).names = g.names := by
  unfold TypesGenerator.generateTypeSource TypesGenerator.generateEnumTypeSource
    TypesGenerator.generateStructTypeSource
  split_ifs <;> first | rfl | exact foldGetter_names td.attributes g

/-- The output path of one type file, computed from a generator state. -/
def typeFileOf (g : TypesGenerator) (td : TypeDecl) : GeneratedFile :=
  { pkg := g.packages.VersionPackage td.type.owner, file := g.typeFile td.type }

/-- The files one version contributes to a run: its metadata file followed
by one type file per enum or struct type, in model order. -/
def versionFiles (g : TypesGenerator) (v : Version) : List GeneratedFile :=
  { pkg := g.packages.VersionPackage v.id, file := g.metadataFile } ::
    (v.types.filter (fun td => td.type.IsEnum || td.type.IsStruct)).map (typeFileOf g)

theorem typeFileOf_congr (g g' : TypesGenerator)
    (hp : g'.packages = g.packages) (hn : g'.names = g.names) :
    typeFileOf g' = typeFileOf g := by
  funext td
  unfold typeFileOf TypesGenerator.typeFile
  rw [hp, hn]

theorem versionFiles_congr (g g' : TypesGenerator)
    (hp : g'.packages = g.packages) (hn : g'.names = g.names) :
    versionFiles g' = versionFiles g := by
  funext v
  unfold versionFiles TypesGenerator.metadataFile
  rw [hp, hn, typeFileOf_congr g g' hp hn]

theorem runTypes_fold (tds : List TypeDecl) :
    ∀ (g : TypesGenerator) (fs : List GeneratedFile),
      (tds.foldl runTypesStep (fs, g)).1 =
        fs ++ (tds.filter (fun td => td.type.IsEnum || td.type.IsStruct)).map
          (typeFileOf g) ∧
      ((tds.foldl runTypesStep (fs, g)).2).packages = g.packages ∧
      ((tds.foldl runTypesStep (fs, g)).2).names = g.names := by
  induction tds with
  | nil => intro g fs; exact ⟨by simp, rfl, rfl⟩
  | cons td tds ih =>
    intro g fs
    rw [List.foldl_cons]
    by_cases h : (td.type.IsEnum || td.type.IsStruct) = true
    · have hstep : runTypesStep (fs, g) td =
          (fs ++ [typeFileOf g td], g.generateTypeSource td) := by
        unfold runTypesStep
        rw [if_pos h]
        rfl
      obtain ⟨h1, h2, h3⟩ := ih (g.generateTypeSource td) (fs ++ [typeFileOf g td])
      have hcongr : typeFileOf (g.generateTypeSource td) = typeFileOf g :=
        typeFileOf_congr g (g.generateTypeSource td)
          (generateTypeSource_packages g td) (generateTypeSource_names g td)
      refine ⟨?_, ?_, ?_⟩
      · rw [hstep, h1, hcongr]
        simp [List.filter_cons, h]
      · rw [hstep, h2, generateTypeSource_packages]
      · rw [hstep, h3, generateTypeSource_names]
    · have h' : (td.type.IsEnum || td.type.IsStruct) = false := by simpa using h
      have hstep : runTypesStep (fs, g) td = (fs, g) := by
        unfold runTypesStep
        rw [if_neg h]
      obtain ⟨h1, h2, h3⟩ := ih g fs
      rw [hstep]
      refine ⟨?_, h2, h3⟩
      rw [h1]
      simp [List.filter_cons, h']

theorem runVersion_spec (g : TypesGenerator) (v : Version) :
    (g.runVersion v).1 = versionFiles g v ∧
    ((g.runVersion v).2).packages = g.packages ∧
    ((g.runVersion v).2).names = g.names := by
  obtain ⟨h1, h2, h3⟩ := runTypes_fold v.types g []
  have e1 : (g.runVersion v).1 =
      { pkg := g.packages.VersionPackage v.id, file := g.metadataFile } ::
        (v.types.foldl runTypesStep ([], g)).1 := rfl
  have e2 : (g.runVersion v).2 = (v.types.foldl runTypesStep ([], g)).2 := rfl
  refine ⟨?_, by rw [e2]; exact h2, by rw [e2]; exact h3⟩
  rw [e1, h1]
  simp [versionFiles]

theorem runVersions_fold (vs : List Version) :
    ∀ (g : TypesGenerator) (fs : List GeneratedFile),
      (vs.foldl runVersionsStep (fs, g)).1 = fs ++ (vs.map (versionFiles g)).flatten ∧
      ((vs.foldl runVersionsStep (fs, g)).2).packages = g.packages ∧
      ((vs.foldl runVersionsStep (fs, g)).2).names = g.names := by
  induction vs with
  | nil => intro g fs; exact ⟨by simp, rfl, rfl⟩
  | cons v vs ih =>
    intro g fs
    rw [List.foldl_cons]
    have hstep : runVersionsStep (fs, g) v =
        (fs ++ (g.runVersion v).1, (g.runVersion v).2) := rfl
    obtain ⟨hv1, hv2, hv3⟩ := runVersion_spec g v
    obtain ⟨h1, h2, h3⟩ := ih ((g.runVersion v).2) (fs ++ (g.runVersion v).1)
    have hcongr : versionFiles ((g.runVersion v).2) = versionFiles g :=
      versionFiles_congr g ((g.runVersion v).2) hv2 hv3
    refine ⟨?_, by rw [hstep, h2, hv2], by rw [hstep, h3, hv3]⟩
    rw [hstep, h1, hcongr, hv1]
    simp

theorem runServices_fold (ss : List Service) :
    ∀ (g : TypesGenerator) (fs : List GeneratedFile),
      (ss.foldl runServicesStep (fs, g)).1 =
        fs ++ (ss.map (fun s => (s.versions.map (versionFiles g)).flatten)).flatten ∧
      ((ss.foldl runServicesStep (fs, g)).2).packages = g.packages ∧
      ((ss.foldl runServicesStep (fs, g)).2).names = g.names := by
  induction ss with
  | nil => intro g fs; exact ⟨by simp, rfl, rfl⟩
  | cons s ss ih =>
    intro g fs
    rw [List.foldl_cons]
    obtain ⟨hv1, hv2, hv3⟩ := runVersions_fold s.versions g []
    have hstep : runServicesStep (fs, g) s =
        (fs ++ (s.versions.foldl runVersionsStep ([], g)).1,
         (s.versions.foldl runVersionsStep ([], g)).2) := rfl
    obtain ⟨h1, h2, h3⟩ := ih ((s.versions.foldl runVersionsStep ([], g)).2)
      (fs ++ (s.versions.foldl runVersionsStep ([], g)).1)
    have hcongr : versionFiles ((s.versions.foldl runVersionsStep ([], g)).2) =
        versionFiles g :=
      versionFiles_congr g _ hv2 hv3
    refine ⟨?_, by rw [hstep, h2, hv2], by rw [hstep, h3, hv3]⟩
    rw [hstep, h1, hcongr, hv1]
    simp

theorem Run_files (g : TypesGenerator) :
    (g.Run).files =
      (g.model.services.map (fun s => (s.versions.map (versionFiles g)).flatten)).flatten := by
  have e : (g.Run).files = (g.model.services.foldl runServicesStep ([], g)).1 := rfl
  rw [e, (runServices_fold g.model.services g []).1]
  simp

theorem runTypes_fold_skip (tds : List TypeDecl)
    (h : ∀ td ∈ tds, td.type.IsEnum = false ∧ td.type.IsStruct = false) :
    ∀ acc, tds.foldl runTypesStep acc = acc := by
  induction tds with
  | nil => intro acc; rfl
  | cons td tds ih =>
    intro acc
    rw [List.foldl_cons]
    have hstep : runTypesStep acc td = acc := by
      unfold runTypesStep
      obtain ⟨h1, h2⟩ := h td (by simp)
      rw [h1, h2]
      simp
    rw [hstep]
    exact ih (fun td' htd' => h td' (by simp [htd'])) acc

theorem runVersion_skip (g : TypesGenerator) (v : Version)
    (h : ∀ td ∈ v.types, td.type.IsEnum = false ∧ td.type.IsStruct = false) :
    g.runVersion v = ([(g.generateVersionMetadataTypeFile v).1], g) := by
  unfold TypesGenerator.runVersion
  rw [runTypes_fold_skip v.types h]
  rfl

theorem runVersions_skip_snd (vs : List Version)
    (h : ∀ v ∈ vs, ∀ td ∈ v.types,
      td.type.IsEnum = false ∧ td.type.IsStruct = false) :
    ∀ acc : List GeneratedFile × TypesGenerator,
      (vs.foldl runVersionsStep acc).2 = acc.2 := by
  induction vs with
  | nil => intro acc; rfl
  | cons v vs ih =>
    intro acc
    rw [List.foldl_cons]
    have hstep : (runVersionsStep acc v).2 = acc.2 := by
      unfold runVersionsStep
      rw [runVersion_skip acc.2 v (h v (by simp))]
    rw [ih (fun v' hv' => h v' (by simp [hv'])), hstep]

theorem runServices_skip_snd (ss : List Service)
    (h : ∀ s ∈ ss, ∀ v ∈ s.versions, ∀ td ∈ v.types,
      td.type.IsEnum = false ∧ td.type.IsStruct = false) :
    ∀ acc : List GeneratedFile × TypesGenerator,
      (ss.foldl runServicesStep acc).2 = acc.2 := by
  induction ss with
  | nil => intro acc; rfl
  | cons s ss ih =>
    intro acc
    rw [List.foldl_cons]
    have hstep : (runServicesStep acc s).2 = acc.2 := by
      unfold runServicesStep
      exact runVersions_skip_snd s.versions (h s (by simp)) ([], acc.2)
    rw [ih (fun s' hs' => h s' (by simp [hs'])), hstep]

theorem Run_final_skip (g : TypesGenerator)
    (h : ∀ s ∈ g.model.services, ∀ v ∈ s.versions, ∀ td ∈ v.types,
      td.type.IsEnum = false ∧ td.type.IsStruct = false) :
    (g.Run).final = g := by
  have e : (g.Run).final = (g.model.services.foldl runServicesStep ([], g)).2 := rfl
  rw [e, runServices_skip_snd g.model.services h ([], g)]

theorem runFinish_spec (n : Nat) :
    (runFinish n = none ↔ n = 0) ∧
    (n = 1 → runFinish n = some "there was 1 error") ∧
    (1 < n → runFinish n = some ("there were " ++ toString n ++ " errors")) := by
  refine ⟨⟨?_, ?_⟩, ?_, ?_⟩
  · intro h
    by_cases h0 : n > 0
    · unfold runFinish at h
      rw [if_pos h0] at h
      split at h <;> cases h
    · omega
  · intro h
    subst h
    rfl
  · intro h
    subst h
    rfl
  · intro h2
    unfold runFinish
    rw [if_pos (by omega), if_pos h2]

/-- C2: for every run that completes its traversal, the result is nil
exactly when the accumulated error count is zero; a count of one yields
the singular message and a larger count the plural message carrying the
precise count. -/
theorem claim_C2_run_result (g : TypesGenerator) :
    ((g.Run).result = none ↔ (g.Run).final.errors = 0) ∧
    ((g.Run).final.errors = 1 → (g.Run).result = some "there was 1 error") ∧
    (1 < (g.Run).final.errors →
      (g.Run).result =
        some ("there were " ++ toString ((g.Run).final.errors) ++ " errors")) :=
  runFinish_spec ((g.Run).final.errors)

/-- A concrete packages calculator used by the evaluation witnesses. -/
def cPackages : PackagesCalculator := { VersionPackage := fun i => "v" ++ toString i }

/-- A concrete names calculator used by the evaluation witnesses. -/
def cNames : NamesCalculator :=
  { File := fun n => String.intercalate "_" n ++ ".js",
    Public := fun n => String.intercalate "" n,
    Private := fun n => String.intercalate "-" n }

/-- A concrete types calculator used by the evaluation witnesses; the
three reference kinds are rendered with distinct markers. -/
def cTypes : TypesCalculator :=
  { ValueReference := fun t => { text := "val:" ++ NameString t.name },
    NullableReference := fun t => { text := "null:" ++ NameString t.name },
    ListReference := fun t => { text := "list:" ++ NameString t.name },
    EnumName := fun t => NameString t.name,
    ZeroValue := fun _ => "undefined" }

/-- A concrete generator over an empty model. -/
def g0 : TypesGenerator :=
  { reporter := {}, model := {}, output := "out", packages := cPackages,
    names := cNames, types := cTypes }

/-- A concrete generator whose error counter has already reached 2. -/
def g2W : TypesGenerator := { g0 with errors := 2 }

/-- Witness for C2: a run whose accumulated count is 2 fails with the
plural message carrying the precise count. -/
theorem claim_C2_run_result_witness :
    1 < (g2W.Run).final.errors ∧
    (g2W.Run).result =
      some ("there were " ++ toString ((g2W.Run).final.errors) ++ " errors") ∧
    (g2W.Run).result = some "there were 2 errors" :=
  ⟨by decide, (claim_C2_run_result g2W).2.2 (by decide), by decide⟩

/-- C3: scalar attributes store with the nullable reference and read with
the value reference. -/
theorem claim_C3_scalar_refs (g : TypesGenerator) (attr : Attribute)
    (h : attr.type.IsScalar = true) :
    (g.fieldType attr).1 = g.types.NullableReference attr.type ∧
    (g.getterType attr).1 = g.types.ValueReference attr.type := by
  constructor <;>
    simp [TypesGenerator.fieldType, TypesGenerator.getterType, h]

/-- A concrete scalar-typed attribute. -/
def attrScalar : Attribute :=
  { name := ["name"], type := { name := ["string"], kind := .scalar } }

/-- Witness for C3 at a concrete scalar attribute, with the evaluated
references. -/
theorem claim_C3_scalar_refs_witness :
    attrScalar.type.IsScalar = true ∧
    (g0.fieldType attrScalar).1 = { text := "null:string" } ∧
    (g0.getterType attrScalar).1 = { text := "val:string" } ∧
    ((g0.fieldType attrScalar).1 = g0.types.NullableReference attrScalar.type ∧
      (g0.getterType attrScalar).1 = g0.types.ValueReference attrScalar.type) :=
  ⟨rfl, by decide, by decide, claim_C3_scalar_refs g0 attrScalar rfl⟩

/-- C4: list attributes use the list reference exactly when the attribute
is a link, and the nullable reference otherwise — in the field type and in
the getter type alike. -/
theorem claim_C4_list_refs (g : TypesGenerator) (attr : Attribute)
    (h : attr.type.IsList = true) :
    (attr.link = true →
      (g.fieldType attr).1 = g.types.ListReference attr.type ∧
      (g.getterType attr).1 = g.types.ListReference attr.type) ∧
    (attr.link = false →
      (g.fieldType attr).1 = g.types.NullableReference attr.type ∧
      (g.getterType attr).1 = g.types.NullableReference attr.type) := by
  have hk : attr.type.kind = TypeKind.list := by
    have h' := h
    unfold MType.IsList at h'
    exact beq_iff_eq.mp h'
  constructor <;> intro hl <;> constructor <;>
    simp [TypesGenerator.fieldType, TypesGenerator.getterType, MType.IsScalar,
      MType.IsStruct, MType.IsList, MType.IsMap, hk, hl]

/-- A concrete list-typed link attribute. -/
def attrListLink : Attribute :=
  { name := ["groups"], type := { name := ["group"], kind := .list }, link := true }

/-- Witness for C4 at a concrete list-typed link attribute, with the
evaluated reference. -/
theorem claim_C4_list_refs_witness :
    attrListLink.type.IsList = true ∧
    (g0.getterType attrListLink).1 = { text := "list:group" } ∧
    ((attrListLink.link = true →
      (g0.fieldType attrListLink).1 = g0.types.ListReference attrListLink.type ∧
      (g0.getterType attrListLink).1 = g0.types.ListReference attrListLink.type) ∧
     (attrListLink.link = false →
      (g0.fieldType attrListLink).1 = g0.types.NullableReference attrListLink.type ∧
      (g0.getterType attrListLink).1 = g0.types.NullableReference attrListLink.type)) :=
  ⟨rfl, by decide, claim_C4_list_refs g0 attrListLink rfl⟩

/-- Whether `sub` occurs as a contiguous substring of the character list. -/
def strMentionsAux (sub : List Char) : List Char → Bool
  | [] => sub.isPrefixOf []
  | c :: cs => sub.isPrefixOf (c :: cs) || strMentionsAux sub cs

/-- Whether the string `s` mentions `sub` as a contiguous substring; the
formalisation of an error message "listing" a field. -/
def strMentions (s sub : String) : Bool := strMentionsAux sub.data s.data

/-- C7 counterexample: with every dependency missing, `Build` returns an
error naming only the reporter — the error does not list the missing
model field (nor any of the other four), so it does not list every
missing field. -/
theorem claim_C7_build_cex :
    (NewTypesGenerator.Build).1 = none ∧
    (NewTypesGenerator.Build).2 = some "reporter is mandatory" ∧
    ((NewTypesGenerator.Build).2.map (fun msg => strMentions msg "model")) =
      some false := by
  refine ⟨rfl, rfl, by decide⟩

/-- C7 (amended): `Build` fails fast with a configuration error naming the
first missing mandatory dependency in the fixed check order (reporter,
model, output, packages, names, types) and returns no generator; with all
six present it returns a generator and a nil error. -/
theorem claim_C7_build (b : TypesGeneratorBuilder) :
    (b.reporter = none → b.Build = (none, some "reporter is mandatory")) ∧
    (b.reporter ≠ none → b.model = none →
      b.Build = (none, some "model is mandatory")) ∧
    (b.reporter ≠ none → b.model ≠ none → b.output = "" →
      b.Build = (none, some "output is mandatory")) ∧
    (b.reporter ≠ none → b.model ≠ none → b.output ≠ "" → b.packages = none →
      b.Build = (none, some "packages calculator is mandatory")) ∧
    (b.reporter ≠ none → b.model ≠ none → b.output ≠ "" → b.packages ≠ none →
      b.names = none → b.Build = (none, some "names calculator is mandatory")) ∧
    (b.reporter ≠ none → b.model ≠ none → b.output ≠ "" → b.packages ≠ none →
      b.names ≠ none → b.types = none →
      b.Build = (none, some "types calculator is mandatory")) ∧
    (b.reporter ≠ none → b.model ≠ none → b.output ≠ "" → b.packages ≠ none →
      b.names ≠ none → b.types ≠ none →
      (b.Build).2 = none ∧ (b.Build).1 ≠ none) := by
  refine ⟨?_, ?_, ?_, ?_, ?_, ?_, ?_⟩
  · intro h1
    simp [TypesGeneratorBuilder.Build, h1]
  · intro h1 h2
    obtain ⟨r, hr⟩ := Option.ne_none_iff_exists'.mp h1
    simp [TypesGeneratorBuilder.Build, hr, h2]
  · intro h1 h2 h3
    obtain ⟨r, hr⟩ := Option.ne_none_iff_exists'.mp h1
    obtain ⟨m, hm⟩ := Option.ne_none_iff_exists'.mp h2
    simp [TypesGeneratorBuilder.Build, hr, hm, h3]
  · intro h1 h2 h3 h4
    obtain ⟨r, hr⟩ := Option.ne_none_iff_exists'.mp h1
    obtain ⟨m, hm⟩ := Option.ne_none_iff_exists'.mp h2
    simp [TypesGeneratorBuilder.Build, hr, hm, h3, h4]
  · intro h1 h2 h3 h4 h5
    obtain ⟨r, hr⟩ := Option.ne_none_iff_exists'.mp h1
    obtain ⟨m, hm⟩ := Option.ne_none_iff_exists'.mp h2
    obtain ⟨p, hp⟩ := Option.ne_none_iff_exists'.mp h4
    simp [TypesGeneratorBuilder.Build, hr, hm, h3, hp, h5]
  · intro h1 h2 h3 h4 h5 h6
    obtain ⟨r, hr⟩ := Option.ne_none_iff_exists'.mp h1
    obtain ⟨m, hm⟩ := Option.ne_none_iff_exists'.mp h2
    obtain ⟨p, hp⟩ := Option.ne_none_iff_exists'.mp h4
    obtain ⟨n, hn⟩ := Option.ne_none_iff_exists'.mp h5
    simp [TypesGeneratorBuilder.Build, hr, hm, h3, hp, hn, h6]
  · intro h1 h2 h3 h4 h5 h6
    obtain ⟨r, hr⟩ := Option.ne_none_iff_exists'.mp h1
    obtain ⟨m, hm⟩ := Option.ne_none_iff_exists'.mp h2
    obtain ⟨p, hp⟩ := Option.ne_none_iff_exists'.mp h4
    obtain ⟨n, hn⟩ := Option.ne_none_iff_exists'.mp h5
    obtain ⟨t, ht⟩ := Option.ne_none_iff_exists'.mp h6
    simp [TypesGeneratorBuilder.Build, hr, hm, h3, hp, hn, ht]

/-- A fully configured builder. -/
def bFull : TypesGeneratorBuilder :=
  { reporter := some {}, model := some {}, output := "out",
    packages := some cPackages, names := some cNames, types := some cTypes }

/-- Witness for C7: the fully configured builder builds with a nil error
and a non-nil generator. -/
theorem claim_C7_build_witness :
    (bFull.Build).2 = none ∧ (bFull.Build).1 ≠ none :=
  (claim_C7_build bFull).2.2.2.2.2.2 (by simp [bFull]) (by simp [bFull])
    (by simp [bFull]) (by simp [bFull]) (by simp [bFull]) (by simp [bFull])

/-- C9: the generated type file is named after the entity's name
concatenated with the word `type`, put through the names calculator's
file-name form, in the package of the entity's owning version; the
metadata file likewise from `metadata` concatenated with `type`. -/
theorem claim_C9_file_naming (g : TypesGenerator) (td : TypeDecl)
    (version : Version) :
    (g.generateTypeFile td).1.file =
      g.names.File (names.Cat td.type.name nomenclator.TypeName) ∧
    (g.generateTypeFile td).1.pkg = g.packages.VersionPackage td.type.owner ∧
    (g.generateVersionMetadataTypeFile version).1.file =
      g.names.File (names.Cat nomenclator.Metadata nomenclator.TypeName) ∧
    (g.generateVersionMetadataTypeFile version).1.pkg =
      g.packages.VersionPackage version.id :=
  ⟨rfl, rfl, rfl, rfl⟩

/-- C10: the files of a run are, per version, the metadata file followed
by one type file per enum or struct type — every other kind contributes
nothing — and when no type is an enum or a struct the run leaves the
generator (reporter included) untouched, reporting no error. -/
theorem claim_C10_type_file_selection (g : TypesGenerator) :
    (g.Run).files =
      (g.model.services.map
        (fun s => (s.versions.map (versionFiles g)).flatten)).flatten ∧
    ((∀ s ∈ g.model.services, ∀ v ∈ s.versions, ∀ td ∈ v.types,
        td.type.IsEnum = false ∧ td.type.IsStruct = false) →
      (g.Run).final = g) :=
  ⟨Run_files g, fun h => Run_final_skip g h⟩

/-- A generator over a model with one bare scalar type only. -/
def gSkip : TypesGenerator :=
  { g0 with model :=
    { services := [{ name := ["s"], versions :=
      [{ id := 3, types := [{ type := { name := ["bare"], kind := .scalar } }] }] }] } }

/-- Witness for C10: the bare scalar type yields no file — only the
metadata file appears — and the run leaves the generator untouched. -/
theorem claim_C10_type_file_selection_witness :
    (gSkip.Run).files = [{ pkg := "v3", file := "metadata_type.js" }] ∧
    (gSkip.Run).final = gSkip :=
  ⟨by decide, (claim_C10_type_file_selection gSkip).2 (by decide)⟩

/-- An attribute whose value type matches none of scalar, struct, list or
map in the generator's dispatch (under the spec's kind set, an enum-kinded
value type). -/
def mkScalarAttr (s : String) : Attribute :=
  { name := [s], type := { name := ["string"], kind := .scalar, owner := 1 } }

/-- Ten well-formed struct types with one scalar attribute each. -/
def goodTypes : List TypeDecl :=
  (List.range 10).map (fun i =>
    { type := { name := ["good", toString i], kind := .struct, owner := 1 },
      attributes := [mkScalarAttr "value"] })

/-- One struct type whose attribute has an unclassifiable value type. -/
def badType : TypeDecl :=
  { type := { name := ["bad"], kind := .struct, owner := 1 },
    attributes :=
      [{ name := ["weird"], type := { name := ["color"], kind := .enum, owner := 1 } }] }

/-- The C1 scenario: one service, one version, ten well-formed types and
one type with an unclassifiable attribute. -/
def gC1 : TypesGenerator :=
  { g0 with model :=
    { services := [{ name := ["svc"], versions :=
      [{ id := 1, name := ["v1"], types := goodTypes ++ [badType] }] }] } }

/-- C1 evaluated at the failing input: `getterType` reports the
model-consistency error through the reporter (one message is recorded and
all eleven type files plus the metadata file are still generated), but the
generator's error counter stays at zero, so `Run` returns nil success
instead of the aggregate error "there was 1 error" that the claim (and
the spec) require. -/
theorem claim_C1_run_eval :
    (gC1.Run).final.reporter.errors =
      ["Don't know how to calculate getter type for attribute 'weird'"] ∧
    (gC1.Run).files.length = 12 ∧
    (gC1.Run).final.errors = 0 ∧
    (gC1.Run).result = none :=
  ⟨by decide, by decide, by decide, by decide⟩

end Metamodel
